import Mathlib

/-!
# keyvalue-server: the coordinator, the line codec and the lifecycle facade

A shallow embedding of `server_impl.go` and `constants.go`.

* Byte slices (`[]byte`) are lists of `UInt8`.  A Go `string` is an immutable byte
  sequence and `string(b)` copies the bytes of `b` unchanged, so store keys are byte
  lists as well.
* `net.Conn` values are used by the server only as map keys (connection identity); they
  are natural numbers here.
* Go `int` counters are modelled as unbounded integers: `activeClients` and
  `droppedClients` move by one per membership event, so wrapping would need `2^63` events.
* The store (`kvstore.KVStore`) is an interface value: the model is parametric in its
  state type and its four operations.
* The goroutines communicate with the coordinator through unbuffered channels; the
  coordinator handles one `select` case at a time, which is modelled by a step function
  over the selected case.  A send on a request's reply channel appends to the sequence of
  values sent on that channel.
-/

namespace KeyValue

/-! ## Bytes and the constants of `constants.go` -/

abbrev Bytes := List UInt8

/-- The bytes of an ASCII string literal. -/
def bytesOf (s : String) : Bytes := s.toList.map (fun c => c.toNat.toUInt8)

def PutCommand : Bytes := bytesOf "Put"

def GetCommand : Bytes := bytesOf "Get"

def DeleteCommand : Bytes := bytesOf "Delete"

def UpdateCommand : Bytes := bytesOf "Update"

/-- The one-byte separator `":"` (0x3A). -/
def CommandSeparator : UInt8 := 58

/-! ## `bytes.SplitN` (Go standard library) for a one-byte separator

`bytes.SplitN(s, sep, n)` is `genSplit(s, sep, 0, n)`.  The program only ever passes
`[]byte(CommandSeparator)`, a separator of length one, for which `bytes.Index` is
`bytes.IndexByte`; the separator is therefore a single byte here. -/

/-- The index of the first occurrence of `c` in `s` (`bytes.IndexByte`), `none` for Go's `-1`. -/
def IndexByte : Bytes → UInt8 → Option Nat
  | [], _ => none
  | b :: rest, c => if b = c then some 0 else (IndexByte rest c).map (· + 1)

/-- The loop of `genSplit`: `k` is the number of cuts still allowed (`n - 1 - i`). -/
def splitLoop (sep : UInt8) : Nat → Bytes → List Bytes
  | 0, s => [s]
  | k + 1, s =>
    match IndexByte s sep with
    | none => [s]
    | some m => s.take m :: splitLoop sep k (s.drop (m + 1))

/-- Go's `genSplit(s, sep, 0, n)` with `len(sep) = 1`. -/
def genSplit (s : Bytes) (sep : UInt8) (n : Int) : List Bytes :=
  if n = 0 then []
  else
    let n1 : Nat := if n < 0 then s.count sep + 1 else n.toNat
    let n2 : Nat := if n1 > s.length + 1 then s.length + 1 else n1
    splitLoop sep (n2 - 1) s

def SplitN (s : Bytes) (sep : UInt8) (n : Int) : List Bytes := genSplit s sep n

/-! ## The store interface -/

/-- The interface `kvstore.KVStore` over a store state `σ`: every operation may change the
state; `Get` also returns the values. -/
structure KVStore (σ : Type) where
  Put : σ → Bytes → Bytes → σ
  Get : σ → Bytes → List Bytes × σ
  Update : σ → Bytes → Bytes → Bytes → σ
  Delete : σ → Bytes → σ

/-- One invocation of a store operation with its arguments. -/
inductive StoreCall where
  | Put (key value : Bytes)
  | Get (key : Bytes)
  | Update (key oldVal newVal : Bytes)
  | Delete (key : Bytes)
  deriving DecidableEq, Repr

/-- The store `S` instrumented with the log of the operations invoked on it. -/
def traced {σ : Type} (S : KVStore σ) : KVStore (σ × List StoreCall) where
  Put st key value := (S.Put st.1 key value, st.2 ++ [StoreCall.Put key value])
  Get st key := ((S.Get st.1 key).1, ((S.Get st.1 key).2, st.2 ++ [StoreCall.Get key]))
  Update st key o n := (S.Update st.1 key o n, st.2 ++ [StoreCall.Update key o n])
  Delete st key := (S.Delete st.1 key, st.2 ++ [StoreCall.Delete key])

/-- A small in-memory store: the (key, value) pairs in insertion order. -/
def memStore : KVStore (List (Bytes × Bytes)) where
  Put st key value := st ++ [(key, value)]
  Get st key := ((st.filter (fun p => p.1 = key)).map (·.2), st)
  Update st key o n := st.map (fun p => if p.1 = key ∧ p.2 = o then (key, n) else p)
  Delete st key := st.filter (fun p => p.1 ≠ key)

/-! ## Server state -/

abbrev Conn := Nat

/-- The struct `client`: the connection and (the identity of) its outbound queue. -/
structure client where
  conn : Conn
  response : Nat
  deriving DecidableEq, Repr

/-- A `net.Listener`: the port it is bound to and whether it has been closed. -/
structure Listener where
  port : Nat
  closed : Bool
  deriving DecidableEq, Repr

/-- Lookup in a Go map held as an association list. -/
def mapLookup {β : Type} (m : List (Conn × β)) (k : Conn) : Option β :=
  (m.find? (fun p => p.1 = k)).map (·.2)

/-- The map assignment `m[k] = v`: an existing entry for `k` is replaced. -/
def mapInsert {β : Type} (m : List (Conn × β)) (k : Conn) (v : β) : List (Conn × β) :=
  (k, v) :: m.filter (fun p => p.1 ≠ k)

/-- The builtin `delete(m, k)`. -/
def mapDelete {β : Type} (m : List (Conn × β)) (k : Conn) : List (Conn × β) :=
  m.filter (fun p => p.1 ≠ k)

/-- The struct `keyValueServer`.  `closeChan` is `true` once the channel has been closed;
the channels `requests` and `clientEvents` are unbuffered and hold no state. -/
structure keyValueServer (σ : Type) where
  store : σ
  listener : Option Listener
  clients : List (Conn × client)
  closeChan : Bool
  activeClients : Int
  droppedClients : Int
  closed : Bool

/-- The struct `request`; `responseChan` is the sequence of values sent on the reply
channel so far. -/
structure request where
  command : Bytes
  conn : Conn
  responseChan : List (List Bytes)

inductive clientEventType where
  | clientConnect
  | clientDisconnect
  deriving DecidableEq, Repr

/-- The struct `clientEvent`.  The field `client` is read for connect events only; Go
leaves it `nil` in a disconnect event, where it may be anything here. -/
structure clientEvent where
  eventType : clientEventType
  conn : Conn
  client : client

/-- Go's `New`. -/
def New {σ : Type} (store : σ) : keyValueServer σ :=
  { store := store, listener := none, clients := [], closeChan := false,
    activeClients := 0, droppedClients := 0, closed := false }

/-! ## The codec and `processRequest` -/

def generateResponse (key : Bytes) (values : List Bytes) : List Bytes :=
  values.foldl (fun responses val => responses ++ [key ++ [58] ++ val]) []

/-- Go's `processRequest`: the new server state and the reply channel after the call. -/
def processRequest {σ : Type} (S : KVStore σ) (kvs : keyValueServer σ) (req : request) :
    keyValueServer σ × List (List Bytes) :=
  let line := req.command
  let responses : List Bytes := []
  match mapLookup kvs.clients req.conn with
  | none => (kvs, req.responseChan ++ [responses])
  | some _ =>
    let parts := SplitN line CommandSeparator 2
    match parts with
    | [] => (kvs, req.responseChan ++ [responses])
    | command :: _ =>
      if command = PutCommand then
        if parts.length ≥ 2 then
          let keyValue := SplitN (parts.getD 1 []) CommandSeparator 2
          if keyValue.length = 2 then
            ({ kvs with store := S.Put kvs.store (keyValue.getD 0 []) (keyValue.getD 1 []) },
              req.responseChan ++ [responses])
          else (kvs, req.responseChan ++ [responses])
        else (kvs, req.responseChan ++ [responses])
      else if command = GetCommand then
        if parts.length = 2 then
          let r := S.Get kvs.store (parts.getD 1 [])
          ({ kvs with store := r.2 },
            req.responseChan ++ [generateResponse (parts.getD 1 []) r.1])
        else (kvs, req.responseChan ++ [responses])
      else if command = UpdateCommand then
        if parts.length = 2 then
          let params := SplitN (parts.getD 1 []) CommandSeparator 3
          if params.length = 3 then
            ({ kvs with
                store := S.Update kvs.store (params.getD 0 []) (params.getD 1 [])
                  (params.getD 2 []) },
              req.responseChan ++ [responses])
          else (kvs, req.responseChan ++ [responses])
        else (kvs, req.responseChan ++ [responses])
      else if command = DeleteCommand then
        if parts.length = 2 then
          ({ kvs with store := S.Delete kvs.store (parts.getD 1 []) },
            req.responseChan ++ [responses])
        else (kvs, req.responseChan ++ [responses])
      else (kvs, req.responseChan ++ [responses])

/-- The server `kvs` with its store instrumented, starting from an empty call log. -/
def withLog {σ : Type} (kvs : keyValueServer σ) : keyValueServer (σ × List StoreCall) :=
  { store := (kvs.store, []), listener := kvs.listener, clients := kvs.clients,
    closeChan := kvs.closeChan, activeClients := kvs.activeClients,
    droppedClients := kvs.droppedClients, closed := kvs.closed }

/-- The store operations `processRequest` invokes, in order, when run on `kvs` and `req`. -/
def storeCalls {σ : Type} (S : KVStore σ) (kvs : keyValueServer σ) (req : request) :
    List StoreCall :=
  (processRequest (traced S) (withLog kvs) req).1.store.2

/-! ## The coordinator (`manager`) -/

/-- The `select` case the coordinator takes in one iteration of its loop.  The case
`closeChan` is the receive `<-kvs.closeChan`, which succeeds only once `Close` has closed
that channel. -/
inductive Selected where
  | closeChan
  | clientEvents (evt : clientEvent)
  | requests (req : request)

/-- The coordinator goroutine: the server state it owns, whether `manager` has returned,
the sockets and outbound queues it has closed, and the reply channels of the requests it
has answered. -/
structure Coordinator (σ : Type) where
  kvs : keyValueServer σ
  returned : Bool
  closedConns : List Conn
  closedQueues : List Nat
  replyChans : List (List (List Bytes))

/-- One iteration of the loop of `manager`; once `manager` has returned nothing is
processed any more. -/
def managerStep {σ : Type} (S : KVStore σ) (st : Coordinator σ) (sel : Selected) :
    Coordinator σ :=
  if st.returned then st
  else
    match sel with
    | Selected.closeChan =>
      { st with
        kvs := { st.kvs with clients := [] }
        closedConns := st.closedConns ++ st.kvs.clients.map (fun p => p.2.conn)
        closedQueues := st.closedQueues ++ st.kvs.clients.map (fun p => p.2.response)
        returned := true }
    | Selected.clientEvents evt =>
      match evt.eventType with
      | clientEventType.clientConnect =>
        { st with
          kvs := { st.kvs with
            clients := mapInsert st.kvs.clients evt.conn evt.client
            activeClients := st.kvs.activeClients + 1 } }
      | clientEventType.clientDisconnect =>
        if (mapLookup st.kvs.clients evt.conn).isSome then
          { st with
            kvs := { st.kvs with
              clients := mapDelete st.kvs.clients evt.conn
              activeClients := st.kvs.activeClients - 1
              droppedClients := st.kvs.droppedClients + 1 } }
        else st
    | Selected.requests req =>
      { st with
        kvs := (processRequest S st.kvs req).1
        replyChans := st.replyChans ++ [(processRequest S st.kvs req).2] }

/-- The coordinator launched on the server `kvs`. -/
def Coordinator.start {σ : Type} (kvs : keyValueServer σ) : Coordinator σ :=
  { kvs := kvs, returned := false, closedConns := [], closedQueues := [], replyChans := [] }

/-- The coordinator after it has handled the select cases `sels` in order. -/
def manager {σ : Type} (S : KVStore σ) (st : Coordinator σ) (sels : List Selected) :
    Coordinator σ :=
  sels.foldl (managerStep S) st

/-- Every connect event among `sels` carries a connection that is not in the registry
when the coordinator handles it. -/
def freshConnects {σ : Type} (S : KVStore σ) : Coordinator σ → List Selected → Bool
  | _, [] => true
  | st, sel :: rest =>
    (match sel with
      | Selected.clientEvents evt =>
        evt.eventType != clientEventType.clientConnect
          || (mapLookup st.kvs.clients evt.conn).isNone
      | _ => true)
    && freshConnects S (managerStep S st sel) rest

def CountActive {σ : Type} (kvs : keyValueServer σ) : Int := kvs.activeClients

def CountDropped {σ : Type} (kvs : keyValueServer σ) : Int := kvs.droppedClients

/-! ## The facade: `Start` and `Close` -/

inductive Goroutine where
  | manager
  | acceptConnections
  deriving DecidableEq, Repr

/-- What a call of `Start` does: the server afterwards, the returned error (`none` for
`nil`), the ports `net.Listen` was called on and the goroutines launched. -/
structure StartResult (σ : Type) where
  kvs : keyValueServer σ
  err : Option String
  listenCalls : List Int
  launched : List Goroutine

/-- Go's `Start`; `netListen` stands for `net.Listen("tcp", ":port")`. -/
def Start {σ : Type} (netListen : Int → Except String Listener) (kvs : keyValueServer σ)
    (port : Int) : StartResult σ :=
  if kvs.closed then
    { kvs := kvs, err := some "server already closed", listenCalls := [], launched := [] }
  else
    match netListen port with
    | Except.error e => { kvs := kvs, err := some e, listenCalls := [port], launched := [] }
    | Except.ok listener =>
      { kvs := { kvs with listener := some listener }, err := none, listenCalls := [port],
        launched := [Goroutine.manager, Goroutine.acceptConnections] }

/-- Go's `Close`.  Closing a channel that is already closed panics (`Except.error`). -/
def Close {σ : Type} (kvs : keyValueServer σ) : Except String (keyValueServer σ) :=
  if kvs.closed then Except.ok kvs
  else
    let kvs1 := { kvs with closed := true }
    if kvs1.closeChan then Except.error "close of closed channel"
    else
      let kvs2 := { kvs1 with closeChan := true }
      match kvs2.listener with
      | some l => Except.ok { kvs2 with listener := some { l with closed := true } }
      | none => Except.ok kvs2

/-! ## Derived notions and concrete inputs used in the statements -/

/-- The connect event of connection `c` with outbound queue `q`. -/
def connectEvent (c : Conn) (q : Nat) : Selected :=
  Selected.clientEvents ⟨clientEventType.clientConnect, c, ⟨c, q⟩⟩

/-- A disconnect event of connection `c`. -/
def disconnectEvent (c : Conn) : Selected :=
  Selected.clientEvents ⟨clientEventType.clientDisconnect, c, ⟨c, 0⟩⟩

/-- The server after `New` on an empty `memStore` once the coordinator has registered
connection 7. -/
def oneClient : keyValueServer (List (Bytes × Bytes)) :=
  (manager memStore (Coordinator.start (New [])) [connectEvent 7 0]).kvs

/-- What the coordinator maintains: no connection is registered twice, and until `manager`
returns `activeClients` is the number of registry entries. -/
def Coordinator.consistent {σ : Type} (st : Coordinator σ) : Prop :=
  (st.kvs.clients.map Prod.fst).Nodup
    ∧ (st.returned = false → st.kvs.activeClients = (st.kvs.clients.length : Int))

theorem IndexByte_of_not_mem (s : Bytes) (c : UInt8) (h : c ∉ s) : IndexByte s c = none := by
  induction s with
  | nil => rfl
  | cons b rest ih =>
    simp only [List.mem_cons, not_or] at h
    have hb : b ≠ c := fun e => h.1 e.symm
    simp [IndexByte, hb, ih h.2]

theorem IndexByte_append (k r : Bytes) (c : UInt8) (h : c ∉ k) :
    IndexByte (k ++ c :: r) c = some k.length := by
  induction k with
  | nil => simp [IndexByte]
  | cons b rest ih =>
    simp only [List.mem_cons, not_or] at h
    have hb : b ≠ c := fun e => h.1 e.symm
    simp [IndexByte, hb, ih h.2]

theorem exists_first_sep (s : Bytes) (c : UInt8) (h : c ∈ s) :
    ∃ k r, s = k ++ c :: r ∧ c ∉ k := by
  induction s with
  | nil => simp at h
  | cons b rest ih =>
    by_cases hb : b = c
    · exact ⟨[], rest, by simp [hb], by simp⟩
    · have hr : c ∈ rest := by
        rcases List.mem_cons.mp h with e | e
        · exact absurd e.symm hb
        · exact e
      obtain ⟨k, r, hs, hk⟩ := ih hr
      refine ⟨b :: k, r, by simp [hs], ?_⟩
      simp only [List.mem_cons, not_or]
      exact ⟨fun e => hb e.symm, hk⟩

theorem splitLoop_of_not_mem (sep : UInt8) (n : Nat) (s : Bytes) (h : sep ∉ s) :
    splitLoop sep n s = [s] := by
  cases n with
  | zero => rfl
  | succ k => simp [splitLoop, IndexByte_of_not_mem s sep h]

theorem splitLoop_append (sep : UInt8) (n : Nat) (k r : Bytes) (h : sep ∉ k) :
    splitLoop sep (n + 1) (k ++ sep :: r) = k :: splitLoop sep n r := by
  simp [splitLoop, IndexByte_append k r sep h]

theorem SplitN_of_not_mem (s : Bytes) (sep : UInt8) (n : Int) (hn : n ≠ 0) (h : sep ∉ s) :
    SplitN s sep n = [s] := by
  simp [SplitN, genSplit, hn, splitLoop_of_not_mem sep _ s h]

theorem SplitN_two_append (k r : Bytes) (sep : UInt8) (h : sep ∉ k) :
    SplitN (k ++ sep :: r) sep 2 = [k, r] := by
  have h2 : ¬ (2 > (k ++ sep :: r).length + 1) := by simp; omega
  simp only [SplitN, genSplit]
  simp only [show (2 : Int) ≠ 0 by decide, show ¬ ((2 : Int) < 0) by decide, if_false]
  simp only [show (2 : Int).toNat = 2 from rfl, h2, if_false]
  rw [show 2 - 1 = 0 + 1 from rfl, splitLoop_append sep 0 k r h]
  rfl

theorem SplitN_three_append (k r : Bytes) (sep : UInt8) (h : sep ∉ k) (hr : r ≠ []) :
    SplitN (k ++ sep :: r) sep 3 = k :: splitLoop sep 1 r := by
  have h3 : ¬ (3 > (k ++ sep :: r).length + 1) := by
    cases r with
    | nil => exact absurd rfl hr
    | cons a t => simp; omega
  simp only [SplitN, genSplit]
  simp only [show (3 : Int) ≠ 0 by decide, show ¬ ((3 : Int) < 0) by decide, if_false]
  simp only [show (3 : Int).toNat = 3 from rfl, h3, if_false]
  rw [show 3 - 1 = 1 + 1 from rfl, splitLoop_append sep 1 k r h]

theorem SplitN_three_one (k o : Bytes) (sep : UInt8) (h : sep ∉ k) (ho : sep ∉ o) :
    SplitN (k ++ sep :: o) sep 3 = [k, o] := by
  by_cases hr : o = []
  · subst hr
    have h3 : (3 > (k ++ [sep]).length + 1) ∨ ¬ (3 > (k ++ [sep]).length + 1) := em _
    simp only [SplitN, genSplit]
    simp only [show (3 : Int) ≠ 0 by decide, show ¬ ((3 : Int) < 0) by decide, if_false]
    simp only [show (3 : Int).toNat = 3 from rfl]
    rcases h3 with h3 | h3
    · have hk : k = [] := by
        cases k with
        | nil => rfl
        | cons a t => simp at h3; omega
      subst hk
      simp [splitLoop, IndexByte]
    · simp only [h3, if_false]
      rw [show 3 - 1 = 1 + 1 from rfl, splitLoop_append sep 1 k [] h]
      rfl
  · rw [SplitN_three_append k o sep h hr, splitLoop_of_not_mem sep 1 o ho]

theorem SplitN_three_two (k o n : Bytes) (sep : UInt8) (h : sep ∉ k) (ho : sep ∉ o) :
    SplitN (k ++ sep :: (o ++ sep :: n)) sep 3 = [k, o, n] := by
  rw [SplitN_three_append k _ sep h (by simp), splitLoop_append sep 0 o n ho]
  rfl

/-! ## Facts about the command words -/

theorem sep_not_mem_Put : CommandSeparator ∉ PutCommand := by decide

theorem sep_not_mem_Get : CommandSeparator ∉ GetCommand := by decide

theorem sep_not_mem_Update : CommandSeparator ∉ UpdateCommand := by decide

theorem Get_ne_Put : GetCommand ≠ PutCommand := by decide

theorem Update_ne_Put : UpdateCommand ≠ PutCommand := by decide

theorem Update_ne_Get : UpdateCommand ≠ GetCommand := by decide

theorem foldl_response (key : Bytes) (values acc : List Bytes) :
    values.foldl (fun responses val => responses ++ [key ++ [58] ++ val]) acc
      = acc ++ values.map (fun val => key ++ 58 :: val) := by
  induction values generalizing acc with
  | nil => simp
  | cons v rest ih =>
    rw [List.foldl_cons, ih]
    simp

theorem generateResponse_eq_map (key : Bytes) (values : List Bytes) :
    generateResponse key values = values.map (fun val => key ++ 58 :: val) := by
  rw [generateResponse, foldl_response]
  simp

/-! ## `processRequest`, case by case -/

section cases

variable {σ : Type} (S : KVStore σ) (kvs : keyValueServer σ) (req : request)

theorem processRequest_unregistered (h : mapLookup kvs.clients req.conn = none) :
    processRequest S kvs req = (kvs, req.responseChan ++ [[]]) := by
  simp [processRequest, h]

theorem processRequest_no_sep (h : (mapLookup kvs.clients req.conn).isSome)
    (hline : CommandSeparator ∉ req.command) :
    processRequest S kvs req = (kvs, req.responseChan ++ [[]]) := by
  obtain ⟨cl, hcl⟩ := Option.isSome_iff_exists.mp h
  simp [processRequest, hcl, SplitN_of_not_mem req.command CommandSeparator 2 (by decide) hline]

theorem processRequest_put (h : (mapLookup kvs.clients req.conn).isSome) (k v : Bytes)
    (hline : req.command = PutCommand ++ CommandSeparator :: (k ++ CommandSeparator :: v))
    (hk : CommandSeparator ∉ k) :
    processRequest S kvs req
      = ({ kvs with store := S.Put kvs.store k v }, req.responseChan ++ [[]]) := by
  obtain ⟨cl, hcl⟩ := Option.isSome_iff_exists.mp h
  simp [processRequest, hcl, hline, SplitN_two_append _ _ _ sep_not_mem_Put,
    SplitN_two_append _ _ _ hk]

theorem processRequest_put_short (h : (mapLookup kvs.clients req.conn).isSome) (r : Bytes)
    (hline : req.command = PutCommand ++ CommandSeparator :: r)
    (hr : CommandSeparator ∉ r) :
    processRequest S kvs req = (kvs, req.responseChan ++ [[]]) := by
  obtain ⟨cl, hcl⟩ := Option.isSome_iff_exists.mp h
  simp [processRequest, hcl, hline, SplitN_two_append _ _ _ sep_not_mem_Put,
    SplitN_of_not_mem r CommandSeparator 2 (by decide) hr]

theorem processRequest_get (h : (mapLookup kvs.clients req.conn).isSome) (k : Bytes)
    (hline : req.command = GetCommand ++ CommandSeparator :: k) :
    processRequest S kvs req
      = ({ kvs with store := (S.Get kvs.store k).2 },
          req.responseChan ++ [(S.Get kvs.store k).1.map (fun v => k ++ 58 :: v)]) := by
  obtain ⟨cl, hcl⟩ := Option.isSome_iff_exists.mp h
  simp [processRequest, hcl, hline, SplitN_two_append _ _ _ sep_not_mem_Get, Get_ne_Put,
    generateResponse_eq_map]

theorem processRequest_update (h : (mapLookup kvs.clients req.conn).isSome) (k o n : Bytes)
    (hline : req.command
      = UpdateCommand ++ CommandSeparator ::
          (k ++ CommandSeparator :: (o ++ CommandSeparator :: n)))
    (hk : CommandSeparator ∉ k) (ho : CommandSeparator ∉ o) :
    processRequest S kvs req
      = ({ kvs with store := S.Update kvs.store k o n }, req.responseChan ++ [[]]) := by
  obtain ⟨cl, hcl⟩ := Option.isSome_iff_exists.mp h
  simp [processRequest, hcl, hline, SplitN_two_append _ _ _ sep_not_mem_Update, Update_ne_Put,
    Update_ne_Get, SplitN_three_two _ _ _ _ hk ho]

theorem processRequest_update_one (h : (mapLookup kvs.clients req.conn).isSome) (k o : Bytes)
    (hline : req.command = UpdateCommand ++ CommandSeparator :: (k ++ CommandSeparator :: o))
    (hk : CommandSeparator ∉ k) (ho : CommandSeparator ∉ o) :
    processRequest S kvs req = (kvs, req.responseChan ++ [[]]) := by
  obtain ⟨cl, hcl⟩ := Option.isSome_iff_exists.mp h
  simp [processRequest, hcl, hline, SplitN_two_append _ _ _ sep_not_mem_Update, Update_ne_Put,
    Update_ne_Get, SplitN_three_one _ _ _ hk ho]

theorem processRequest_update_none (h : (mapLookup kvs.clients req.conn).isSome) (r : Bytes)
    (hline : req.command = UpdateCommand ++ CommandSeparator :: r)
    (hr : CommandSeparator ∉ r) :
    processRequest S kvs req = (kvs, req.responseChan ++ [[]]) := by
  obtain ⟨cl, hcl⟩ := Option.isSome_iff_exists.mp h
  simp [processRequest, hcl, hline, SplitN_two_append _ _ _ sep_not_mem_Update, Update_ne_Put,
    Update_ne_Get, SplitN_of_not_mem r CommandSeparator 3 (by decide) hr]

theorem processRequest_other (h : (mapLookup kvs.clients req.conn).isSome) (c r : Bytes)
    (hline : req.command = c ++ CommandSeparator :: r) (hc : CommandSeparator ∉ c)
    (h1 : c ≠ PutCommand) (h2 : c ≠ GetCommand) (h3 : c ≠ UpdateCommand)
    (h4 : c ≠ DeleteCommand) :
    processRequest S kvs req = (kvs, req.responseChan ++ [[]]) := by
  obtain ⟨cl, hcl⟩ := Option.isSome_iff_exists.mp h
  simp [processRequest, hcl, hline, SplitN_two_append _ _ _ hc, h1, h2, h3, h4]

end cases

/-! ## Frame facts about `processRequest` -/

section frame

variable {σ : Type} (S : KVStore σ) (kvs : keyValueServer σ) (req : request)

theorem processRequest_frame :
    (processRequest S kvs req).1
      = { kvs with store := (processRequest S kvs req).1.store } := by
  simp only [processRequest]
  repeat' split
  all_goals rfl

theorem processRequest_sends_one :
    ∃ reply, (processRequest S kvs req).2 = req.responseChan ++ [reply] := by
  simp only [processRequest]
  repeat' split
  all_goals exact ⟨_, rfl⟩

theorem takeWhile_first_sep (c r : Bytes) (sep : UInt8) (hc : sep ∉ c) :
    (c ++ sep :: r).takeWhile (· ≠ sep) = c := by
  induction c with
  | nil => simp
  | cons b rest ih =>
    simp only [List.mem_cons, not_or] at hc
    have hb : b ≠ sep := fun e => hc.1 e.symm
    have ih2 := ih hc.2
    simp only [ne_eq, decide_not] at ih2
    simp [List.takeWhile, hb, ih2]

theorem count_append_sep (k r : Bytes) (sep : UInt8) (hk : sep ∉ k) :
    (k ++ sep :: r).count sep = r.count sep + 1 := by
  simp [List.count_append, List.count_eq_zero_of_not_mem hk]

end frame

/-! ## The request claims -/

/-- C1: a request `Get:k` from a registered connection invokes the store's Get exactly once,
with key `k` (which may be empty or contain colons), invokes nothing else, and sends as its
reply one line `k:v` for each value `v` the store returned, in the store's order. -/
theorem get_request_reply {σ : Type} (S : KVStore σ) (kvs : keyValueServer σ) (req : request)
    (k : Bytes) (hreg : (mapLookup kvs.clients req.conn).isSome)
    (hline : req.command = GetCommand ++ CommandSeparator :: k) :
    processRequest S kvs req
        = ({ kvs with store := (S.Get kvs.store k).2 },
            req.responseChan ++ [(S.Get kvs.store k).1.map (fun v => k ++ CommandSeparator :: v)])
      ∧ storeCalls S kvs req = [StoreCall.Get k] := by
  refine ⟨processRequest_get S kvs req hreg k hline, ?_⟩
  rw [storeCalls, processRequest_get (traced S) (withLog kvs) req hreg k hline]
  rfl

theorem get_request_reply_witness :
    (mapLookup oneClient.clients 7).isSome = true
      ∧ bytesOf "Get:a:b" = GetCommand ++ CommandSeparator :: bytesOf "a:b"
      ∧ (processRequest memStore { oneClient with store := [(bytesOf "a:b", bytesOf "1"),
            (bytesOf "c", bytesOf "2"), (bytesOf "a:b", bytesOf "3")] }
          ⟨bytesOf "Get:a:b", 7, []⟩).2 = [[bytesOf "a:b:1", bytesOf "a:b:3"]] :=
  ⟨by decide, by decide,
    (congrArg Prod.snd (get_request_reply memStore
      { oneClient with store := [(bytesOf "a:b", bytesOf "1"), (bytesOf "c", bytesOf "2"),
          (bytesOf "a:b", bytesOf "3")] }
      ⟨bytesOf "Get:a:b", 7, []⟩ (bytesOf "a:b") (by decide) (by decide)).1).trans
      (by decide)⟩

/-- C2: a request `Put:r` from a registered connection invokes the store's Put if and only
if `r` contains a colon, and then exactly once, with the bytes of `r` before its first colon
as key and all bytes after that colon as value; nothing else is invoked and the reply is the
empty list in both cases. -/
theorem put_request_effect {σ : Type} (S : KVStore σ) (kvs : keyValueServer σ) (req : request)
    (r : Bytes) (hreg : (mapLookup kvs.clients req.conn).isSome)
    (hline : req.command = PutCommand ++ CommandSeparator :: r) :
    (CommandSeparator ∉ r →
        processRequest S kvs req = (kvs, req.responseChan ++ [[]])
          ∧ storeCalls S kvs req = [])
      ∧ (∀ k v : Bytes, r = k ++ CommandSeparator :: v → CommandSeparator ∉ k →
        processRequest S kvs req
            = ({ kvs with store := S.Put kvs.store k v }, req.responseChan ++ [[]])
          ∧ storeCalls S kvs req = [StoreCall.Put k v])
      ∧ (storeCalls S kvs req ≠ [] ↔ CommandSeparator ∈ r) := by
  have hno : CommandSeparator ∉ r →
      processRequest S kvs req = (kvs, req.responseChan ++ [[]])
        ∧ storeCalls S kvs req = [] := by
    intro hr
    refine ⟨processRequest_put_short S kvs req hreg r hline hr, ?_⟩
    rw [storeCalls, processRequest_put_short (traced S) (withLog kvs) req hreg r hline hr]
    rfl
  have hyes : ∀ k v : Bytes, r = k ++ CommandSeparator :: v → CommandSeparator ∉ k →
      processRequest S kvs req
          = ({ kvs with store := S.Put kvs.store k v }, req.responseChan ++ [[]])
        ∧ storeCalls S kvs req = [StoreCall.Put k v] := by
    intro k v hr hk
    subst hr
    refine ⟨processRequest_put S kvs req hreg k v hline hk, ?_⟩
    rw [storeCalls, processRequest_put (traced S) (withLog kvs) req hreg k v hline hk]
    rfl
  refine ⟨hno, hyes, ?_⟩
  constructor
  · intro hne
    by_contra hr
    exact hne (hno hr).2
  · intro hr
    obtain ⟨k, v, hs, hk⟩ := exists_first_sep r CommandSeparator hr
    rw [(hyes k v hs hk).2]
    simp

theorem put_request_effect_witness :
    (mapLookup oneClient.clients 7).isSome = true
      ∧ bytesOf "Put:a:x:y:z" = PutCommand ++ CommandSeparator :: bytesOf "a:x:y:z"
      ∧ (processRequest memStore oneClient ⟨bytesOf "Put:a:x:y:z", 7, []⟩
            = ({ oneClient with store := [(bytesOf "a", bytesOf "x:y:z")] }, [[]])
          ∧ storeCalls memStore oneClient ⟨bytesOf "Put:a:x:y:z", 7, []⟩
            = [StoreCall.Put (bytesOf "a") (bytesOf "x:y:z")]) :=
  ⟨by decide, by decide,
    (put_request_effect memStore oneClient ⟨bytesOf "Put:a:x:y:z", 7, []⟩ (bytesOf "a:x:y:z")
      (by decide) (by decide)).2.1 (bytesOf "a") (bytesOf "x:y:z") (by decide) (by decide)⟩

theorem count_lt_two_cases (r : Bytes) (sep : UInt8) (h : r.count sep < 2) :
    sep ∉ r ∨ ∃ k o, r = k ++ sep :: o ∧ sep ∉ k ∧ sep ∉ o := by
  by_cases hr : sep ∈ r
  · right
    obtain ⟨k, o, hs, hk⟩ := exists_first_sep r sep hr
    refine ⟨k, o, hs, hk, ?_⟩
    rw [hs, count_append_sep k o sep hk] at h
    exact List.count_eq_zero.mp (by omega)
  · exact Or.inl hr

theorem two_le_count_cases (r : Bytes) (sep : UInt8) (h : 2 ≤ r.count sep) :
    ∃ k o n, r = k ++ sep :: (o ++ sep :: n) ∧ sep ∉ k ∧ sep ∉ o := by
  have hr : sep ∈ r := List.count_pos_iff.mp (by omega)
  obtain ⟨k, r1, hs, hk⟩ := exists_first_sep r sep hr
  rw [hs, count_append_sep k r1 sep hk] at h
  have hr1 : sep ∈ r1 := List.count_pos_iff.mp (by omega)
  obtain ⟨o, n, hs1, ho⟩ := exists_first_sep r1 sep hr1
  exact ⟨k, o, n, by rw [hs, hs1], hk, ho⟩

/-- C3: a request `Update:r` from a registered connection invokes the store's Update if and
only if `r` contains at least two colons, and then exactly once, with key the bytes before
the first colon, old value the bytes between the first and the second colon and new value
everything after the second colon; otherwise nothing is invoked; the reply is always the
empty list. -/
theorem update_request_effect {σ : Type} (S : KVStore σ) (kvs : keyValueServer σ)
    (req : request) (r : Bytes) (hreg : (mapLookup kvs.clients req.conn).isSome)
    (hline : req.command = UpdateCommand ++ CommandSeparator :: r) :
    (r.count CommandSeparator < 2 →
        processRequest S kvs req = (kvs, req.responseChan ++ [[]])
          ∧ storeCalls S kvs req = [])
      ∧ (∀ k o n : Bytes, r = k ++ CommandSeparator :: (o ++ CommandSeparator :: n) →
        CommandSeparator ∉ k → CommandSeparator ∉ o →
        processRequest S kvs req
            = ({ kvs with store := S.Update kvs.store k o n }, req.responseChan ++ [[]])
          ∧ storeCalls S kvs req = [StoreCall.Update k o n])
      ∧ (storeCalls S kvs req ≠ [] ↔ 2 ≤ r.count CommandSeparator) := by
  have hno : r.count CommandSeparator < 2 →
      processRequest S kvs req = (kvs, req.responseChan ++ [[]])
        ∧ storeCalls S kvs req = [] := by
    intro hc
    rcases count_lt_two_cases r CommandSeparator hc with hr | ⟨k, o, hs, hk, ho⟩
    · refine ⟨processRequest_update_none S kvs req hreg r hline hr, ?_⟩
      rw [storeCalls, processRequest_update_none (traced S) (withLog kvs) req hreg r hline hr]
      rfl
    · subst hs
      refine ⟨processRequest_update_one S kvs req hreg k o hline hk ho, ?_⟩
      rw [storeCalls,
        processRequest_update_one (traced S) (withLog kvs) req hreg k o hline hk ho]
      rfl
  have hyes : ∀ k o n : Bytes, r = k ++ CommandSeparator :: (o ++ CommandSeparator :: n) →
      CommandSeparator ∉ k → CommandSeparator ∉ o →
      processRequest S kvs req
          = ({ kvs with store := S.Update kvs.store k o n }, req.responseChan ++ [[]])
        ∧ storeCalls S kvs req = [StoreCall.Update k o n] := by
    intro k o n hs hk ho
    subst hs
    refine ⟨processRequest_update S kvs req hreg k o n hline hk ho, ?_⟩
    rw [storeCalls, processRequest_update (traced S) (withLog kvs) req hreg k o n hline hk ho]
    rfl
  refine ⟨hno, hyes, ?_⟩
  constructor
  · intro hne
    by_contra hc
    exact hne (hno (by omega)).2
  · intro hc
    obtain ⟨k, o, n, hs, hk, ho⟩ := two_le_count_cases r CommandSeparator hc
    rw [(hyes k o n hs hk ho).2]
    simp

theorem update_request_effect_witness :
    (mapLookup oneClient.clients 7).isSome = true
      ∧ bytesOf "Update:a:1:2:3" = UpdateCommand ++ CommandSeparator :: bytesOf "a:1:2:3"
      ∧ storeCalls memStore oneClient ⟨bytesOf "Update:a:1:2:3", 7, []⟩
          = [StoreCall.Update (bytesOf "a") (bytesOf "1") (bytesOf "2:3")] :=
  ⟨by decide, by decide,
    ((update_request_effect memStore oneClient ⟨bytesOf "Update:a:1:2:3", 7, []⟩
      (bytesOf "a:1:2:3") (by decide) (by decide)).2.1 (bytesOf "a") (bytesOf "1")
      (bytesOf "2:3") (by decide) (by decide) (by decide)).2⟩

/-- C5: a request from a registered connection whose line has no colon, or whose command
token (the bytes before the first colon) is none of `Put`, `Get`, `Update`, `Delete`,
invokes no store operation, leaves the whole server state (store, registry, counters)
unchanged and replies with the empty list. -/
theorem unrecognized_request_noop {σ : Type} (S : KVStore σ) (kvs : keyValueServer σ)
    (req : request) (hreg : (mapLookup kvs.clients req.conn).isSome)
    (hline : CommandSeparator ∉ req.command
      ∨ req.command.takeWhile (· ≠ CommandSeparator)
          ∉ [PutCommand, GetCommand, UpdateCommand, DeleteCommand]) :
    processRequest S kvs req = (kvs, req.responseChan ++ [[]])
      ∧ storeCalls S kvs req = [] := by
  have key : ∀ {τ : Type} (T : KVStore τ) (s : keyValueServer τ),
      (mapLookup s.clients req.conn).isSome →
      processRequest T s req = (s, req.responseChan ++ [[]]) := by
    intro τ T s hs
    by_cases hsep : CommandSeparator ∈ req.command
    · obtain ⟨c, r, hcr, hc⟩ := exists_first_sep req.command CommandSeparator hsep
      have htok : c ∉ [PutCommand, GetCommand, UpdateCommand, DeleteCommand] := by
        rcases hline with h | h
        · exact absurd hsep h
        · rwa [hcr, takeWhile_first_sep c r CommandSeparator hc] at h
      simp only [List.mem_cons, List.mem_singleton, List.not_mem_nil, or_false, not_or] at htok
      exact processRequest_other T s req hs c r hcr hc htok.1 htok.2.1 htok.2.2.1 htok.2.2.2
    · exact processRequest_no_sep T s req hs hsep
  refine ⟨key S kvs hreg, ?_⟩
  rw [storeCalls, key (traced S) (withLog kvs) hreg]
  rfl

theorem unrecognized_request_noop_witness :
    (mapLookup oneClient.clients 7).isSome = true
      ∧ CommandSeparator ∉ bytesOf "Ping"
      ∧ (bytesOf "put:a:1").takeWhile (· ≠ CommandSeparator)
          ∉ [PutCommand, GetCommand, UpdateCommand, DeleteCommand]
      ∧ (processRequest memStore oneClient ⟨bytesOf "Ping", 7, []⟩ = (oneClient, [[]])
          ∧ storeCalls memStore oneClient ⟨bytesOf "Ping", 7, []⟩ = [])
      ∧ (processRequest memStore oneClient ⟨bytesOf "put:a:1", 7, []⟩ = (oneClient, [[]])
          ∧ storeCalls memStore oneClient ⟨bytesOf "put:a:1", 7, []⟩ = []) :=
  ⟨by decide, by decide, by decide,
    unrecognized_request_noop memStore oneClient ⟨bytesOf "Ping", 7, []⟩ (by decide)
      (Or.inl (by decide)),
    unrecognized_request_noop memStore oneClient ⟨bytesOf "put:a:1", 7, []⟩ (by decide)
      (Or.inr (by decide))⟩

/-- C6: whatever the command bytes, the connection and the store, `processRequest` sends
exactly one value on the request's reply channel: the channel afterwards holds what it held
before followed by one reply. -/
theorem processRequest_replies_once {σ : Type} (S : KVStore σ) (kvs : keyValueServer σ)
    (req : request) :
    (∃ reply, (processRequest S kvs req).2 = req.responseChan ++ [reply])
      ∧ (processRequest S kvs req).2.length = req.responseChan.length + 1 := by
  obtain ⟨reply, h⟩ := processRequest_sends_one S kvs req
  exact ⟨⟨reply, h⟩, by rw [h]; simp⟩

/-- C7: a request whose connection is not in the registry, whatever its command line, gets
the empty list as reply and invokes no store operation; the server state (store, registry,
both counters) is unchanged. -/
theorem unregistered_request_noop {σ : Type} (S : KVStore σ) (kvs : keyValueServer σ)
    (req : request) (hunreg : mapLookup kvs.clients req.conn = none) :
    processRequest S kvs req = (kvs, req.responseChan ++ [[]])
      ∧ storeCalls S kvs req = [] := by
  refine ⟨processRequest_unregistered S kvs req hunreg, ?_⟩
  rw [storeCalls, processRequest_unregistered (traced S) (withLog kvs) req hunreg]
  rfl

theorem unregistered_request_noop_witness :
    mapLookup oneClient.clients 8 = none
      ∧ processRequest memStore oneClient ⟨bytesOf "Put:a:1", 8, []⟩ = (oneClient, [[]])
      ∧ storeCalls memStore oneClient ⟨bytesOf "Put:a:1", 8, []⟩ = [] :=
  ⟨by decide, unregistered_request_noop memStore oneClient ⟨bytesOf "Put:a:1", 8, []⟩
    (by decide)⟩

/-! ## The registry as a map -/

section registry

variable {β : Type}

theorem mapLookup_eq_none_iff (m : List (Conn × β)) (k : Conn) :
    mapLookup m k = none ↔ ∀ p ∈ m, p.1 ≠ k := by
  simp [mapLookup, List.find?_eq_none]

theorem filter_of_lookup_none (m : List (Conn × β)) (k : Conn) (h : mapLookup m k = none) :
    m.filter (fun p => p.1 ≠ k) = m := by
  rw [List.filter_eq_self]
  intro p hp
  simpa using (mapLookup_eq_none_iff m k).mp h p hp

theorem mapLookup_mapDelete_self (m : List (Conn × β)) (k : Conn) :
    mapLookup (mapDelete m k) k = none := by
  rw [mapLookup_eq_none_iff]
  intro p hp
  simpa [mapDelete] using (List.mem_filter.mp hp).2

theorem mapLookup_mapDelete_ne (m : List (Conn × β)) (k k2 : Conn) (h : k2 ≠ k) :
    mapLookup (mapDelete m k) k2 = mapLookup m k2 := by
  induction m with
  | nil => rfl
  | cons p rest ih =>
    by_cases hp : p.1 = k
    · have hp2 : p.1 ≠ k2 := fun e => h (e.symm.trans hp)
      have hd : mapDelete (p :: rest) k = mapDelete rest k := by simp [mapDelete, hp]
      rw [hd, ih]
      simp [mapLookup, List.find?, hp2]
    · have hd : mapDelete (p :: rest) k = p :: mapDelete rest k := by simp [mapDelete, hp]
      rw [hd]
      by_cases hp2 : p.1 = k2
      · simp [mapLookup, List.find?, hp2]
      · have ih2 := ih
        simp only [mapLookup] at ih2 ⊢
        simp [List.find?, hp2, ih2]

theorem keys_mapDelete_nodup (m : List (Conn × β)) (k : Conn)
    (h : (m.map Prod.fst).Nodup) : ((mapDelete m k).map Prod.fst).Nodup := by
  have hsub : List.Sublist ((mapDelete m k).map Prod.fst) (m.map Prod.fst) :=
    List.Sublist.map _ (List.filter_sublist m)
  exact h.sublist hsub

theorem length_mapDelete (m : List (Conn × β)) (k : Conn) (h : (m.map Prod.fst).Nodup)
    (hk : (mapLookup m k).isSome) : (mapDelete m k).length + 1 = m.length := by
  induction m with
  | nil => simp [mapLookup] at hk
  | cons p rest ih =>
    have hnd := List.nodup_cons.mp h
    by_cases hp : p.1 = k
    · have hnone : mapLookup rest k = none := by
        rw [mapLookup_eq_none_iff]
        intro q hq e
        exact hnd.1 (by rw [hp, ← e]; exact List.mem_map_of_mem Prod.fst hq)
      have hd : mapDelete (p :: rest) k = rest := by
        simp only [mapDelete, List.filter_cons]
        simp only [hp, ne_eq, not_true_eq_false, decide_False, Bool.false_eq_true, if_false]
        exact filter_of_lookup_none rest k hnone
      rw [hd]
      rfl
    · have hk2 : (mapLookup rest k).isSome := by
        simpa [mapLookup, List.find?, hp] using hk
      have hd : mapDelete (p :: rest) k = p :: mapDelete rest k := by simp [mapDelete, hp]
      rw [hd, List.length_cons, ih hnd.2 hk2, List.length_cons]

theorem keys_mapInsert_nodup (m : List (Conn × β)) (k : Conn) (v : β)
    (h : (m.map Prod.fst).Nodup) : ((mapInsert m k v).map Prod.fst).Nodup := by
  simp only [mapInsert, List.map_cons]
  refine List.nodup_cons.mpr ⟨?_, keys_mapDelete_nodup m k h⟩
  intro hmem
  obtain ⟨p, hp, hpk⟩ := List.mem_map.mp hmem
  have := (List.mem_filter.mp hp).2
  simp [hpk] at this

theorem length_mapInsert_fresh (m : List (Conn × β)) (k : Conn) (v : β)
    (hk : mapLookup m k = none) : (mapInsert m k v).length = m.length + 1 := by
  rw [mapInsert, filter_of_lookup_none m k hk]
  rfl

end registry

/-! ## The coordinator's counters -/

theorem consistent_start {σ : Type} (store : σ) :
    (Coordinator.start (New store)).consistent := by
  simp [Coordinator.consistent, Coordinator.start, New]

theorem managerStep_consistent {σ : Type} (S : KVStore σ) (st : Coordinator σ) (sel : Selected)
    (hst : st.consistent) (hfresh : freshConnects S st [sel] = true) :
    (managerStep S st sel).consistent := by
  obtain ⟨hnd, hcount⟩ := hst
  by_cases hret : st.returned = true
  · simp only [managerStep, hret, if_true]
    exact ⟨hnd, hcount⟩
  · have hrun : st.returned = false := by simpa using hret
    have hc := hcount hrun
    cases sel with
    | closeChan =>
      simp [managerStep, hrun, Coordinator.consistent]
    | requests req =>
      simp only [managerStep, hrun, Coordinator.consistent, Bool.false_eq_true, if_false]
      rw [processRequest_frame]
      exact ⟨hnd, fun _ => hc⟩
    | clientEvents evt =>
      cases hty : evt.eventType with
      | clientConnect =>
        have hnone : mapLookup st.kvs.clients evt.conn = none := by
          simpa [freshConnects, hty] using hfresh
        simp only [managerStep, hrun, hty, Coordinator.consistent, Bool.false_eq_true,
          if_false]
        refine ⟨keys_mapInsert_nodup _ _ _ hnd, fun _ => ?_⟩
        rw [length_mapInsert_fresh _ _ _ hnone, hc]
        push_cast
        rfl
      | clientDisconnect =>
        by_cases hreg : (mapLookup st.kvs.clients evt.conn).isSome = true
        · simp only [managerStep, hrun, hty, hreg, Coordinator.consistent, Bool.false_eq_true,
            if_false, if_true]
          refine ⟨keys_mapDelete_nodup _ _ hnd, fun _ => ?_⟩
          have hl := length_mapDelete _ _ hnd hreg
          rw [hc, ← hl]
          push_cast
          omega
        · simp only [managerStep, hrun, hty, hreg, Bool.false_eq_true, if_false]
          exact ⟨hnd, hcount⟩

theorem manager_consistent {σ : Type} (S : KVStore σ) (sels : List Selected) :
    ∀ st : Coordinator σ, st.consistent → freshConnects S st sels = true →
      (manager S st sels).consistent := by
  induction sels with
  | nil => intro st hst _; exact hst
  | cons sel rest ih =>
    intro st hst hfresh
    have h1 : freshConnects S st [sel] = true
        ∧ freshConnects S (managerStep S st sel) rest = true := by
      simp only [freshConnects, Bool.and_eq_true] at hfresh ⊢
      exact ⟨⟨hfresh.1, trivial⟩, hfresh.2⟩
    rw [manager, List.foldl_cons]
    exact ih _ (managerStep_consistent S st sel hst h1.1) h1.2

/-! ## The coordinator claims -/

/-- C8 (amended): in every state the coordinator reaches from the initial state by
handling Connect, Disconnect, Request and Shutdown cases, every Connect carrying a connection
that is not registered at that time, `CountActive` equals the number of registry entries as
long as the coordinator has not handled the shutdown signal. -/
theorem active_count_while_running {σ : Type} (S : KVStore σ) (store : σ)
    (sels : List Selected)
    (hfresh : freshConnects S (Coordinator.start (New store)) sels = true)
    (hrun : (manager S (Coordinator.start (New store)) sels).returned = false) :
    CountActive (manager S (Coordinator.start (New store)) sels).kvs
      = ((manager S (Coordinator.start (New store)) sels).kvs.clients.length : Int) :=
  (manager_consistent S sels _ (consistent_start store) hfresh).2 hrun

theorem active_count_while_running_witness :
    freshConnects memStore (Coordinator.start (New []))
        [connectEvent 1 0, connectEvent 2 1, Selected.requests ⟨bytesOf "Put:a:1", 1, []⟩,
          disconnectEvent 1, disconnectEvent 1] = true
      ∧ CountActive (manager memStore (Coordinator.start (New []))
        [connectEvent 1 0, connectEvent 2 1, Selected.requests ⟨bytesOf "Put:a:1", 1, []⟩,
          disconnectEvent 1, disconnectEvent 1]).kvs = 1 :=
  ⟨by decide,
    (active_count_while_running memStore []
      [connectEvent 1 0, connectEvent 2 1, Selected.requests ⟨bytesOf "Put:a:1", 1, []⟩,
        disconnectEvent 1, disconnectEvent 1] (by decide) (by decide)).trans (by decide)⟩

/-- C8 (counterexample): the claim fails after a shutdown.  From the initial state, a
Connect of connection 1 followed by the shutdown case leaves the registry empty while
`CountActive` still reports 1. -/
theorem active_count_after_shutdown :
    freshConnects memStore (Coordinator.start (New []))
        [connectEvent 1 0, Selected.closeChan] = true
      ∧ (manager memStore (Coordinator.start (New []))
          [connectEvent 1 0, Selected.closeChan]).kvs.clients.length = 0
      ∧ CountActive (manager memStore (Coordinator.start (New []))
          [connectEvent 1 0, Selected.closeChan]).kvs = 1 := by
  decide

/-- C9: while the coordinator runs, a Disconnect for a registered connection removes its
entry (and no other), takes one from `activeClients` and adds one to `droppedClients`; a
Disconnect for a connection that is not registered changes nothing.  So the same Disconnect
handled twice, or any number of times more, gives the state of handling it once. -/
theorem disconnect_idempotent {σ : Type} (S : KVStore σ) (st : Coordinator σ)
    (evt : clientEvent) (hty : evt.eventType = clientEventType.clientDisconnect)
    (hrun : st.returned = false) :
    ((mapLookup st.kvs.clients evt.conn).isSome →
        managerStep S st (Selected.clientEvents evt)
            = { st with
                kvs := { st.kvs with
                  clients := mapDelete st.kvs.clients evt.conn
                  activeClients := st.kvs.activeClients - 1
                  droppedClients := st.kvs.droppedClients + 1 } }
          ∧ mapLookup (mapDelete st.kvs.clients evt.conn) evt.conn = none
          ∧ ∀ c : Conn, c ≠ evt.conn →
              mapLookup (mapDelete st.kvs.clients evt.conn) c = mapLookup st.kvs.clients c)
      ∧ (mapLookup st.kvs.clients evt.conn = none →
          managerStep S st (Selected.clientEvents evt) = st)
      ∧ managerStep S (managerStep S st (Selected.clientEvents evt)) (Selected.clientEvents evt)
          = managerStep S st (Selected.clientEvents evt)
      ∧ ∀ n : Nat,
          manager S (managerStep S st (Selected.clientEvents evt))
              (List.replicate n (Selected.clientEvents evt))
            = managerStep S st (Selected.clientEvents evt) := by
  have hyes : (mapLookup st.kvs.clients evt.conn).isSome →
      managerStep S st (Selected.clientEvents evt)
        = { st with
            kvs := { st.kvs with
              clients := mapDelete st.kvs.clients evt.conn
              activeClients := st.kvs.activeClients - 1
              droppedClients := st.kvs.droppedClients + 1 } } := by
    intro hreg
    simp [managerStep, hrun, hty, hreg]
  have hno : mapLookup st.kvs.clients evt.conn = none →
      managerStep S st (Selected.clientEvents evt) = st := by
    intro hun
    simp [managerStep, hrun, hty, hun]
  have hidem : managerStep S (managerStep S st (Selected.clientEvents evt))
      (Selected.clientEvents evt) = managerStep S st (Selected.clientEvents evt) := by
    cases hl : mapLookup st.kvs.clients evt.conn with
    | none => rw [hno hl, hno hl]
    | some cl =>
      rw [hyes (by rw [hl]; rfl)]
      simp [managerStep, hrun, hty, mapLookup_mapDelete_self]
  refine ⟨fun hreg => ⟨hyes hreg, mapLookup_mapDelete_self _ _,
    fun c hc => mapLookup_mapDelete_ne _ _ c hc⟩, hno, hidem, ?_⟩
  intro n
  induction n with
  | zero => rfl
  | succ n ih =>
    rw [List.replicate_succ, manager, List.foldl_cons, hidem]
    exact ih

theorem disconnect_idempotent_witness :
    (manager memStore (Coordinator.start (New [])) [connectEvent 1 0]).returned = false
      ∧ CountDropped (manager memStore (Coordinator.start (New []))
          [connectEvent 1 0, disconnectEvent 1, disconnectEvent 1]).kvs = 1 :=
  ⟨by decide,
    (congrArg (fun s => CountDropped s.kvs)
      (disconnect_idempotent memStore
        (manager memStore (Coordinator.start (New [])) [connectEvent 1 0])
        ⟨clientEventType.clientDisconnect, 1, ⟨1, 0⟩⟩ rfl (by decide)).2.2.1).trans
      (by decide)⟩

/-! ## The lifecycle claim -/

/-- C10: on a server in which the shutdown channel is closed only if `closed` is set (every
server made by `New` and then used through `Start` and `Close` is such), `Close` returns
with `closed` set; a second `Close` then returns the very same state without closing the
channel again, so Close after Close is Close; and `Start` on the closed server returns the
error without calling `net.Listen` or launching a goroutine, leaving the state as it is. -/
theorem close_twice_start_after_close {σ : Type} (kvs : keyValueServer σ)
    (hwf : kvs.closeChan = true → kvs.closed = true) :
    ∃ kvs1 : keyValueServer σ,
      Close kvs = Except.ok kvs1
        ∧ kvs1.closed = true
        ∧ Close kvs1 = Except.ok kvs1
        ∧ (Close kvs >>= Close) = Close kvs
        ∧ ∀ (netListen : Int → Except String Listener) (port : Int),
            Start netListen kvs1 port
              = { kvs := kvs1, err := some "server already closed", listenCalls := [],
                  launched := [] } := by
  have hclosed : ∀ s : keyValueServer σ, s.closed = true → Close s = Except.ok s := by
    intro s hs
    simp [Close, hs]
  have hbind : ∀ s : keyValueServer σ, s.closed = true →
      ((Except.ok s : Except String (keyValueServer σ)) >>= Close) = Except.ok s :=
    fun s hs => hclosed s hs
  have hstart : ∀ s : keyValueServer σ, s.closed = true →
      ∀ (netListen : Int → Except String Listener) (port : Int),
        Start netListen s port
          = { kvs := s, err := some "server already closed", listenCalls := [],
              launched := [] } := by
    intro s hs netListen port
    simp [Start, hs]
  by_cases hc : kvs.closed = true
  · refine ⟨kvs, hclosed kvs hc, hc, hclosed kvs hc, ?_, hstart kvs hc⟩
    rw [hclosed kvs hc]
    exact hbind kvs hc
  · have hc2 : kvs.closed = false := by simpa using hc
    have hch : kvs.closeChan = false := by
      cases h : kvs.closeChan with
      | false => rfl
      | true => exact absurd (hwf h) hc
    cases hl : kvs.listener with
    | none =>
      have h1 : Close kvs = Except.ok { kvs with closed := true, closeChan := true } := by
        simp [Close, hc2, hch, hl]
      refine ⟨_, h1, rfl, hclosed _ rfl, ?_, hstart _ rfl⟩
      rw [h1]
      exact hbind _ rfl
    | some l =>
      have h1 : Close kvs = Except.ok { kvs with
          closed := true, closeChan := true, listener := some { l with closed := true } } := by
        simp [Close, hc2, hch, hl]
      refine ⟨_, h1, rfl, hclosed _ rfl, ?_, hstart _ rfl⟩
      rw [h1]
      exact hbind _ rfl

theorem close_twice_start_after_close_witness :
    ((New ([] : List (Bytes × Bytes))).closeChan = true
        → (New ([] : List (Bytes × Bytes))).closed = true)
      ∧ ∃ kvs1 : keyValueServer (List (Bytes × Bytes)),
          Close (New []) = Except.ok kvs1 ∧ kvs1.closed = true ∧ Close kvs1 = Except.ok kvs1 :=
  ⟨by decide, by
    obtain ⟨kvs1, h1, h2, h3, _⟩ :=
      close_twice_start_after_close (New ([] : List (Bytes × Bytes))) (by decide)
    exact ⟨kvs1, h1, h2, h3⟩⟩

end KeyValue
